import Mathlib

/-!
# WaveShaper: the block processor of `Source/PluginProcessor.cpp`

A shallow embedding of `WaveShaperAudioProcessor::processBlock`, of the four
transfer functions it dispatches to (`processSinusoidal`, `processQuadratic`,
`processFactor`, `processGB`), of the meter accessors `getRMS` / `getOutRMS`,
of the layout check `isBusesLayoutSupported` and of the parameter ranges
declared by `createParameterLayout`.

Samples are elements of a linearly ordered field `α`; the theorems about
transcendental functions instantiate `α` with `ℝ` and the `<cmath>` functions
with their real counterparts.  The `<cmath>` functions are a parameter
(`Libm`) of the definitions, so that every definition stays computable.
-/

namespace WaveShaper

/-! ## Library functions the processor calls -/

/-- The `<cmath>` functions and the constant `juce::MathConstants<float>::pi`
used by the processor: `sin`, `exp`, `sqrt`, `log10` and `pi`. -/
structure Libm (α : Type) where
  sin : α → α
  exp : α → α
  sqrt : α → α
  log10 : α → α
  pi : α

/-- Modelled from the spec: the enumerator `sinusoidal` of `WaveShaper`, which
`PluginProcessor.h` declares; `typeSelect` selects Sinusoidal = 1. -/
def sinusoidal : Int := 1

/-- Modelled from the spec: the enumerator `quadratic` of `WaveShaper`, which
`PluginProcessor.h` declares; `typeSelect` selects Quadratic = 2. -/
def quadratic : Int := 2

/-- Modelled from the spec: the enumerator `factor` of `WaveShaper`, which
`PluginProcessor.h` declares; `typeSelect` selects Factor = 3. -/
def factor : Int := 3

/-- Modelled from the spec: the enumerator `GloubiBoulga` of `WaveShaper`, which
`PluginProcessor.h` declares; `typeSelect` selects GloubiBoulga = 4. -/
def GloubiBoulga : Int := 4

/-- A counted `for` loop: `loop n body init` runs `body 0`, `body 1`, ...,
`body (n - 1)` in this order on the state `init`. -/
def loop {σ : Type} : Nat → (Nat → σ → σ) → σ → σ
  | 0, _, init => init
  | n + 1, body, init => body n (loop n body init)

/-- A `juce::AudioBuffer<float>`: `numChannels` channels of `numSamples`
samples each; `data ch s` is sample `s` of channel `ch`. -/
structure AudioBuffer (α : Type) where
  numChannels : Nat
  numSamples : Nat
  data : Nat → Nat → α

/-- The store `channelData[s] = v` through the write pointer of channel `ch`. -/
def AudioBuffer.setSample {α : Type} (b : AudioBuffer α) (ch s : Nat) (v : α) : AudioBuffer α :=
  { b with data := fun c i => if c = ch ∧ i = s then v else b.data c i }

section Field

variable {α : Type} [LinearOrderedField α]

/-- The call `buffer.clear (channel, 0, numSamples)` of `juce::AudioBuffer`: every one of
the first `numSamples` samples of the channel is set to zero. -/
def AudioBuffer.clear (b : AudioBuffer α) (channel numSamples : Nat) : AudioBuffer α :=
  loop numSamples (fun s buf => buf.setSample channel s 0) b

/-- The call `buffer.getRMSLevel (channel, 0, numSamples)` of `juce::AudioBuffer`: zero when
there is no sample or no such channel, otherwise the square root of the mean of the
squared samples. -/
def AudioBuffer.getRMSLevel (m : Libm α) (b : AudioBuffer α) (channel numSamples : Nat) : α :=
  if numSamples = 0 ∨ b.numChannels ≤ channel then 0
  else m.sqrt (loop numSamples (fun i sum => sum + b.data channel i * b.data channel i) 0
    / (numSamples : α))

/-- The function `juce::Decibels::gainToDecibels` with its default floor of `-100` dB:
`gain > 0 ? jmax (-100, log10 (gain) * 20) : -100`. -/
def gainToDecibels (m : Libm α) (gain : α) : α :=
  if gain > 0 then max (-100) (m.log10 gain * 20) else -100

/-- The call `juce::dsp::Gain::process` on a replacing context over the whole buffer:
sample `i` of every channel is multiplied by the `i`-th value `ramp i` that the smoothed
gain returns during the block. The ramp is a parameter: it is decided by the smoothing
state of the gain stage and by the last `setGainDecibels`. -/
def gainProcess (ramp : Nat → α) (b : AudioBuffer α) : AudioBuffer α :=
  loop b.numChannels (fun chan buf =>
    loop b.numSamples (fun i buf2 => buf2.setSample chan i (buf2.data chan i * ramp i)) buf) b

/-! ## The parameter set -/

/-- The parameters read by the audio callback, one field for each pointer that the
constructor fetches from the value tree. -/
structure Parameters (α : Type) where
  bypass : Bool
  typeSelect : Int
  sinDistort : α
  quadraticDistort : α
  factorDistort : α
  gbDistort : α
  inGainValue : α
  outGainValue : α

/-- The ranges declared by `createParameterLayout`: `amountRange` is `[.01, .99]`,
`amountGreaterRange` is `[.01, 10]`, `gainRange` is `[-20, 20]` and `typeSelect` is an
integer between `1` and `4`. -/
def Parameters.inRange (p : Parameters α) : Prop :=
  (-20 ≤ p.inGainValue ∧ p.inGainValue ≤ 20) ∧
  (1 ≤ p.typeSelect ∧ p.typeSelect ≤ 4) ∧
  (1 / 100 ≤ p.sinDistort ∧ p.sinDistort ≤ 99 / 100) ∧
  (1 / 100 ≤ p.quadraticDistort ∧ p.quadraticDistort ≤ 10) ∧
  (1 / 100 ≤ p.factorDistort ∧ p.factorDistort ≤ 99 / 100) ∧
  (1 / 100 ≤ p.gbDistort ∧ p.gbDistort ≤ 10) ∧
  (-20 ≤ p.outGainValue ∧ p.outGainValue ≤ 20)

/-- The default values given to `createParameterLayout`. -/
def Parameters.default : Parameters α :=
  { bypass := false, typeSelect := 1, sinDistort := 1 / 2, quadraticDistort := 1,
    factorDistort := 1 / 2, gbDistort := 1, inGainValue := 0, outGainValue := 0 }

/-! ## The four transfer functions, on one sample -/

/-- The local `z` of `processSinusoidal`: `pi * sinDistort`. -/
def sinusoidalZ (m : Libm α) (sinDistort : α) : α := m.pi * sinDistort

/-- The local `a` of `processSinusoidal`: `1 / sin (z)`. -/
def sinusoidalA (m : Libm α) (sinDistort : α) : α := 1 / m.sin (sinusoidalZ m sinDistort)

/-- The local `b` of `processSinusoidal`: `1 / sinDistort`. -/
def sinusoidalB (sinDistort : α) : α := 1 / sinDistort

/-- The body of the sample loop of `processSinusoidal`: the value stored for the sample `x`. -/
def sinusoidalSample (m : Libm α) (sinDistort x : α) : α :=
  if x > sinusoidalB sinDistort then 1
  else m.sin (sinusoidalZ m sinDistort * x) * sinusoidalA m sinDistort

/-- The divisor of `processQuadratic`: `pow (x, 2) + (quadraticDistort - 1) * abs (x) + 1`. -/
def quadraticDivisor (quadraticDistort x : α) : α :=
  x ^ 2 + (quadraticDistort - 1) * |x| + 1

/-- The body of the sample loop of `processQuadratic`: the value stored for the sample `x`. -/
def quadraticSample (quadraticDistort x : α) : α :=
  x * (|x| + quadraticDistort) / quadraticDivisor quadraticDistort x

/-- The local `factor` of `processFactor`: `2 * factorDistort / (1 - factorDistort)`. The
division is that of the field; it is the division of the source where the divisor
`1 - factorDistort` is not zero, which is so on the whole declared range of `factorDistort`. -/
def factorOf (factorDistort : α) : α := 2 * factorDistort / (1 - factorDistort)

/-- The divisor of the sample loop of `processFactor`: `1 + factor * abs (x)`. -/
def factorDivisor (factorDistort x : α) : α := 1 + factorOf factorDistort * |x|

/-- The body of the sample loop of `processFactor`: the value stored for the sample `x`. -/
def factorSample (factorDistort x : α) : α :=
  ((1 + factorOf factorDistort) * x) / factorDivisor factorDistort x

/-- The local `distort` of `processGB`: `x * gbDistort`. -/
def gbDistortion (gbDistort x : α) : α := x * gbDistort

/-- The local `constant` of `processGB`: `1 + exp (sqrt (fabs (distort)) * -0.75)`. -/
def gbConstant (m : Libm α) (distort : α) : α := 1 + m.exp (m.sqrt |distort| * (-(3 / 4)))

/-- The divisor of `processGB`: `exp (distort) + exp (-distort)`. -/
def gbDivisor (m : Libm α) (distort : α) : α := m.exp distort + m.exp (-distort)

/-- The body of the sample loop of `processGB`: the value stored for the sample `x`. -/
def gbSample (m : Libm α) (gbDistort x : α) : α :=
  (m.exp (gbDistortion gbDistort x)
      - m.exp (-(gbDistortion gbDistort x) * gbConstant m (gbDistortion gbDistort x)))
    / gbDivisor m (gbDistortion gbDistort x)

/-! ## The four transfer functions, on one channel of the buffer -/

/-- The sample loop shared by the four shapers: for `s` from `0` to `getNumSamples () - 1`,
`data[s] = f (data[s])` on the given channel. -/
def shapeChannel (f : α → α) (channel : Nat) (buffer : AudioBuffer α) : AudioBuffer α :=
  loop buffer.numSamples (fun s buf => buf.setSample channel s (f (buf.data channel s))) buffer

/-- The method `processSinusoidal (channel, buffer)`. -/
def processSinusoidal (m : Libm α) (p : Parameters α) (channel : Nat)
    (buffer : AudioBuffer α) : AudioBuffer α :=
  shapeChannel (sinusoidalSample m p.sinDistort) channel buffer

/-- The method `processQuadratic (channel, buffer)`. -/
def processQuadratic (p : Parameters α) (channel : Nat) (buffer : AudioBuffer α) :
    AudioBuffer α :=
  shapeChannel (quadraticSample p.quadraticDistort) channel buffer

/-- The method `processFactor (channel, buffer)`. -/
def processFactor (p : Parameters α) (channel : Nat) (buffer : AudioBuffer α) :
    AudioBuffer α :=
  shapeChannel (factorSample p.factorDistort) channel buffer

/-- The method `processGB (channel, buffer)`. -/
def processGB (m : Libm α) (p : Parameters α) (channel : Nat) (buffer : AudioBuffer α) :
    AudioBuffer α :=
  shapeChannel (gbSample m p.gbDistort) channel buffer

/-! ## The block processor and its meters -/

/-- Modelled from the spec: the meter arrays `rmsIn` and `rmsOut` of the processor, which
`PluginProcessor.h` declares; each holds one level in decibels for each channel and is
indexed by the channel. -/
structure Meters (α : Type) where
  rmsIn : Nat → α
  rmsOut : Nat → α

/-- The accessor `getRMS (channel)`. -/
def Meters.getRMS (st : Meters α) (channel : Nat) : α := st.rmsIn channel

/-- The accessor `getOutRMS (channel)`. -/
def Meters.getOutRMS (st : Meters α) (channel : Nat) : α := st.rmsOut channel

/-- The body of the first metering loop of `processBlock`: `rmsIn[channel]` receives the
level of the channel in decibels, then `-60` when that is below `-60`. -/
def meterIn (m : Libm α) (buffer : AudioBuffer α) (channel : Nat) (st : Meters α) : Meters α :=
  let st1 : Meters α := ⟨Function.update st.rmsIn channel
    (gainToDecibels m (buffer.getRMSLevel m channel buffer.numSamples)), st.rmsOut⟩
  if st1.rmsIn channel < -60 then ⟨Function.update st1.rmsIn channel (-60), st1.rmsOut⟩
  else st1

/-- The body of the last metering loop of `processBlock`, the same on `rmsOut`. -/
def meterOut (m : Libm α) (buffer : AudioBuffer α) (channel : Nat) (st : Meters α) : Meters α :=
  let st1 : Meters α := ⟨st.rmsIn, Function.update st.rmsOut channel
    (gainToDecibels m (buffer.getRMSLevel m channel buffer.numSamples))⟩
  if st1.rmsOut channel < -60 then ⟨st1.rmsIn, Function.update st1.rmsOut channel (-60)⟩
  else st1

/-- The `switch (typeSelect->get ())` of `processBlock`; the switch has no default case, so
a value that is no enumerator leaves the buffer as it is. -/
def shape (m : Libm α) (p : Parameters α) (channel : Nat) (buffer : AudioBuffer α) :
    AudioBuffer α :=
  if p.typeSelect = sinusoidal then processSinusoidal m p channel buffer
  else if p.typeSelect = quadratic then processQuadratic p channel buffer
  else if p.typeSelect = factor then processFactor p channel buffer
  else if p.typeSelect = GloubiBoulga then processGB m p channel buffer
  else buffer

/-- The value that the shaper selected by `typeSelect` stores for the sample `x`. -/
def transfer (m : Libm α) (p : Parameters α) (x : α) : α :=
  if p.typeSelect = sinusoidal then sinusoidalSample m p.sinDistort x
  else if p.typeSelect = quadratic then quadraticSample p.quadraticDistort x
  else if p.typeSelect = factor then factorSample p.factorDistort x
  else if p.typeSelect = GloubiBoulga then gbSample m p.gbDistort x
  else x

/-- The level that a metering loop stores for a channel: the level of the channel in
decibels, or `-60` when that is below `-60`. -/
def meterLevel (m : Libm α) (buffer : AudioBuffer α) (channel : Nat) : α :=
  if gainToDecibels m (buffer.getRMSLevel m channel buffer.numSamples) < -60 then -60
  else gainToDecibels m (buffer.getRMSLevel m channel buffer.numSamples)

/-- The method `processBlock (buffer, midiMessages)`. The bus layout gives
`totalNumInputChannels` and `totalNumOutputChannels`; `inRamp` and `outRamp` are the gains
that the two gain stages apply to the successive samples of this block; the result is the
meter state and the buffer after the call. -/
def processBlock (m : Libm α) (p : Parameters α)
    (totalNumInputChannels totalNumOutputChannels : Nat) (inRamp outRamp : Nat → α)
    (st : Meters α) (buffer : AudioBuffer α) : Meters α × AudioBuffer α :=
  let st1 := loop totalNumInputChannels (fun channel s => meterIn m buffer channel s) st
  let buffer1 := loop (totalNumOutputChannels - totalNumInputChannels)
    (fun k buf => buf.clear (totalNumInputChannels + k) buf.numSamples) buffer
  if p.bypass then (st1, buffer1)
  else
    let buffer2 := gainProcess inRamp buffer1
    let buffer3 := loop totalNumInputChannels (fun channel buf => shape m p channel buf) buffer2
    let buffer4 := gainProcess outRamp buffer3
    let st2 := loop totalNumInputChannels (fun channel s => meterOut m buffer4 channel s) st1
    (st2, buffer4)

/-! ## The bus layout -/

/-- A `juce::AudioChannelSet`: the set of the channel types it holds, each by its number in
`juce::AudioChannelSet::ChannelType` (`left = 1`, `right = 2`, `centre = 3`). -/
abbrev AudioChannelSet := Finset Nat

/-- The set `juce::AudioChannelSet::mono ()`: the centre channel alone. -/
def AudioChannelSet.mono : AudioChannelSet := {3}

/-- The set `juce::AudioChannelSet::stereo ()`: the left and the right channel. -/
def AudioChannelSet.stereo : AudioChannelSet := {1, 2}

/-- A `BusesLayout` of the processor: the constructor declares one input bus and one output
bus, so the layout is the channel set of the main input and that of the main output. -/
structure BusesLayout where
  mainInput : AudioChannelSet
  mainOutput : AudioChannelSet

/-- The method `isBusesLayoutSupported (layouts)`, for a plugin that is neither a MIDI effect
nor a synth: the main output must be mono or stereo, and the main input must be the same
channel set as the main output. -/
def isBusesLayoutSupported (layouts : BusesLayout) : Bool :=
  if layouts.mainOutput ≠ AudioChannelSet.mono ∧ layouts.mainOutput ≠ AudioChannelSet.stereo
  then false
  else if layouts.mainOutput ≠ layouts.mainInput then false
  else true

/-- The call `getTotalNumInputChannels ()`: the number of channels of the one input bus. -/
def getTotalNumInputChannels (layouts : BusesLayout) : Nat := layouts.mainInput.card

/-- The call `getTotalNumOutputChannels ()`: the number of channels of the one output bus. -/
def getTotalNumOutputChannels (layouts : BusesLayout) : Nat := layouts.mainOutput.card

/-- A block whose samples are all zero. -/
def AudioBuffer.silent (b : AudioBuffer α) : Prop :=
  ∀ c i, c < b.numChannels → i < b.numSamples → b.data c i = 0

end Field

end WaveShaper

namespace WaveShaper

/-! ## Loops over the buffer -/

theorem loop_succ {σ : Type} (n : Nat) (body : Nat → σ → σ) (init : σ) :
    loop (n + 1) body init = body n (loop n body init) := rfl

theorem loop_setSample {α : Type} (g : Nat → α → α) (ch n : Nat) (b : AudioBuffer α) :
    loop n (fun s buf => buf.setSample ch s (g s (buf.data ch s))) b
      = ⟨b.numChannels, b.numSamples,
          fun c i => if c = ch ∧ i < n then g i (b.data c i) else b.data c i⟩ := by
  induction n with
  | zero => cases b; simp [loop]
  | succ k ih =>
    rw [loop_succ, ih]
    simp only [AudioBuffer.setSample]
    congr 1
    funext c i
    by_cases hc : c = ch
    · by_cases hi : i = k
      · subst hc; subst hi; simp
      · have h1 : i < k + 1 ↔ i < k := by omega
        simp [hc, hi, h1]
    · simp [hc]

theorem shapeChannel_eq {α : Type} (f : α → α) (ch : Nat) (b : AudioBuffer α) :
    shapeChannel f ch b
      = ⟨b.numChannels, b.numSamples,
          fun c i => if c = ch ∧ i < b.numSamples then f (b.data c i) else b.data c i⟩ := by
  unfold shapeChannel
  exact loop_setSample (fun _ v => f v) ch b.numSamples b

section Loops

variable {α : Type} [LinearOrderedField α]

theorem clear_eq (ch n : Nat) (b : AudioBuffer α) :
    b.clear ch n
      = ⟨b.numChannels, b.numSamples, fun c i => if c = ch ∧ i < n then 0 else b.data c i⟩ := by
  unfold AudioBuffer.clear
  exact loop_setSample (fun _ _ => (0 : α)) ch n b

theorem clearLoop_eq (lo k : Nat) (b : AudioBuffer α) :
    loop k (fun j buf => buf.clear (lo + j) buf.numSamples) b
      = ⟨b.numChannels, b.numSamples,
          fun c i => if (lo ≤ c ∧ c < lo + k) ∧ i < b.numSamples then 0 else b.data c i⟩ := by
  induction k with
  | zero =>
    cases b
    simp only [loop, AudioBuffer.mk.injEq, true_and]
    funext c i
    have h1 : ¬ (lo ≤ c ∧ c < lo) := by omega
    simp [h1]
  | succ k ih =>
    rw [loop_succ, ih, clear_eq]
    congr 1
    funext c i
    by_cases hc : c = lo + k
    · subst hc
      by_cases hi : i < b.numSamples <;> simp [hi]
    · have h1 : (lo ≤ c ∧ c < lo + (k + 1)) ↔ (lo ≤ c ∧ c < lo + k) := by omega
      simp [hc, h1]

theorem gainLoop_eq (ramp : Nat → α) (n len : Nat) (b : AudioBuffer α) :
    loop n (fun chan buf =>
        loop len (fun i buf2 => buf2.setSample chan i (buf2.data chan i * ramp i)) buf) b
      = ⟨b.numChannels, b.numSamples,
          fun c i => if c < n ∧ i < len then b.data c i * ramp i else b.data c i⟩ := by
  induction n with
  | zero => cases b; simp [loop]
  | succ k ih =>
    rw [loop_succ, ih, loop_setSample (fun i v => v * ramp i)]
    congr 1
    funext c i
    by_cases hc : c = k
    · subst hc
      by_cases hi : i < len <;> simp [hi]
    · have h1 : c < k + 1 ↔ c < k := by omega
      simp [hc, h1]

theorem gainProcess_eq (ramp : Nat → α) (b : AudioBuffer α) :
    gainProcess ramp b
      = ⟨b.numChannels, b.numSamples,
          fun c i => if c < b.numChannels ∧ i < b.numSamples then b.data c i * ramp i
            else b.data c i⟩ := by
  unfold gainProcess
  exact gainLoop_eq ramp b.numChannels b.numSamples b

theorem shape_eq (m : Libm α) (p : Parameters α) (ch : Nat) (b : AudioBuffer α) :
    shape m p ch b
      = ⟨b.numChannels, b.numSamples,
          fun c i => if c = ch ∧ i < b.numSamples then transfer m p (b.data c i)
            else b.data c i⟩ := by
  unfold shape transfer processSinusoidal processQuadratic processFactor processGB
    sinusoidal quadratic factor GloubiBoulga
  by_cases h1 : p.typeSelect = 1
  · simp [h1, shapeChannel_eq]
  by_cases h2 : p.typeSelect = 2
  · simp [h2, shapeChannel_eq]
  by_cases h3 : p.typeSelect = 3
  · simp [h3, shapeChannel_eq]
  by_cases h4 : p.typeSelect = 4
  · simp [h4, shapeChannel_eq]
  · cases b
    simp [h1, h2, h3, h4]

theorem shapeLoop_eq (m : Libm α) (p : Parameters α) (n : Nat) (b : AudioBuffer α) :
    loop n (fun channel buf => shape m p channel buf) b
      = ⟨b.numChannels, b.numSamples,
          fun c i => if c < n ∧ i < b.numSamples then transfer m p (b.data c i)
            else b.data c i⟩ := by
  induction n with
  | zero => cases b; simp [loop]
  | succ k ih =>
    rw [loop_succ, ih, shape_eq]
    congr 1
    funext c i
    by_cases hc : c = k
    · subst hc
      by_cases hi : i < b.numSamples <;> simp [hi]
    · have h1 : c < k + 1 ↔ c < k := by omega
      simp [hc, h1]

theorem meterIn_eq (m : Libm α) (buffer : AudioBuffer α) (channel : Nat) (st : Meters α) :
    meterIn m buffer channel st
      = ⟨Function.update st.rmsIn channel (meterLevel m buffer channel), st.rmsOut⟩ := by
  unfold meterIn meterLevel
  simp only [Function.update_same]
  split_ifs <;> simp

theorem meterOut_eq (m : Libm α) (buffer : AudioBuffer α) (channel : Nat) (st : Meters α) :
    meterOut m buffer channel st
      = ⟨st.rmsIn, Function.update st.rmsOut channel (meterLevel m buffer channel)⟩ := by
  unfold meterOut meterLevel
  simp only [Function.update_same]
  split_ifs <;> simp

theorem meterInLoop_eq (m : Libm α) (buffer : AudioBuffer α) (n : Nat) (st : Meters α) :
    loop n (fun channel s => meterIn m buffer channel s) st
      = ⟨fun c => if c < n then meterLevel m buffer c else st.rmsIn c, st.rmsOut⟩ := by
  induction n with
  | zero => cases st; simp [loop]
  | succ k ih =>
    rw [loop_succ, ih, meterIn_eq]
    congr 1
    funext c
    by_cases hc : c = k
    · subst hc; simp
    · have h1 : c < k + 1 ↔ c < k := by omega
      simp [Function.update_noteq hc, h1]

theorem meterOutLoop_eq (m : Libm α) (buffer : AudioBuffer α) (n : Nat) (st : Meters α) :
    loop n (fun channel s => meterOut m buffer channel s) st
      = ⟨st.rmsIn, fun c => if c < n then meterLevel m buffer c else st.rmsOut c⟩ := by
  induction n with
  | zero => cases st; simp [loop]
  | succ k ih =>
    rw [loop_succ, ih, meterOut_eq]
    congr 1
    funext c
    by_cases hc : c = k
    · subst hc; simp
    · have h1 : c < k + 1 ↔ c < k := by omega
      simp [Function.update_noteq hc, h1]

/-- The block processor with the bypass parameter set: the meters of the input channels are
refreshed, the output channels beyond the input channels are cleared, nothing else. -/
theorem processBlock_bypass (m : Libm α) (p : Parameters α) (nIn nOut : Nat)
    (inRamp outRamp : Nat → α) (st : Meters α) (buffer : AudioBuffer α)
    (hb : p.bypass = true) :
    processBlock m p nIn nOut inRamp outRamp st buffer
      = (⟨fun c => if c < nIn then meterLevel m buffer c else st.rmsIn c, st.rmsOut⟩,
         ⟨buffer.numChannels, buffer.numSamples,
          fun c i => if (nIn ≤ c ∧ c < nIn + (nOut - nIn)) ∧ i < buffer.numSamples then 0
            else buffer.data c i⟩) := by
  unfold processBlock
  simp only [hb, if_true, meterInLoop_eq, clearLoop_eq]

end Loops

/-! ## The rational shapers on one sample -/

section Samples

variable {α : Type} [LinearOrderedField α]

theorem quadraticDivisor_pos (q x : α) (hq : 1 / 100 ≤ q) : 0 < quadraticDivisor q x := by
  unfold quadraticDivisor
  have h0 : 0 ≤ |x| := abs_nonneg x
  have h2 : x ^ 2 = |x| ^ 2 := (sq_abs x).symm
  rw [h2]
  nlinarith [sq_nonneg (|x| - 1), mul_nonneg h0 (show (0 : α) ≤ q - 1 / 100 by linarith)]

theorem quadraticSample_bounds (q x : α) (hq : 1 / 100 ≤ q) (hx1 : -1 ≤ x) (hx2 : x ≤ 1) :
    -1 ≤ quadraticSample q x ∧ quadraticSample q x ≤ 1 := by
  have hD := quadraticDivisor_pos q x hq
  unfold quadraticSample
  rw [le_div_iff₀ hD, div_le_iff₀ hD]
  unfold quadraticDivisor
  rcases le_total 0 x with h | h
  · rw [abs_of_nonneg h]
    constructor <;> nlinarith [mul_nonneg h (show (0 : α) ≤ q - 1 / 100 by linarith)]
  · rw [abs_of_nonpos h]
    constructor <;>
      nlinarith [mul_nonneg (neg_nonneg.mpr h) (show (0 : α) ≤ q - 1 / 100 by linarith)]

theorem factorOf_nonneg (f : α) (hf1 : 1 / 100 ≤ f) (hf2 : f ≤ 99 / 100) : 0 ≤ factorOf f := by
  unfold factorOf
  apply div_nonneg <;> linarith

theorem factorDivisor_pos (f x : α) (hf1 : 1 / 100 ≤ f) (hf2 : f ≤ 99 / 100) :
    0 < factorDivisor f x := by
  unfold factorDivisor
  have hk := factorOf_nonneg f hf1 hf2
  have h0 : 0 ≤ |x| := abs_nonneg x
  nlinarith [mul_nonneg hk h0]

theorem factorSample_bounds (f x : α) (hf1 : 1 / 100 ≤ f) (hf2 : f ≤ 99 / 100)
    (hx1 : -1 ≤ x) (hx2 : x ≤ 1) : -1 ≤ factorSample f x ∧ factorSample f x ≤ 1 := by
  have hD := factorDivisor_pos f x hf1 hf2
  have hk := factorOf_nonneg f hf1 hf2
  unfold factorSample
  rw [le_div_iff₀ hD, div_le_iff₀ hD]
  unfold factorDivisor
  rcases le_total 0 x with h | h
  · rw [abs_of_nonneg h]
    constructor <;> nlinarith [mul_nonneg hk h]
  · rw [abs_of_nonpos h]
    constructor <;> nlinarith [mul_nonneg hk (neg_nonneg.mpr h)]

theorem factorSample_zero (f : α) : factorSample f 0 = 0 := by
  simp [factorSample]

theorem quadraticSample_zero (q : α) : quadraticSample q 0 = 0 := by
  simp [quadraticSample]

end Samples

/-! ## The transcendental shapers on one real sample

The `<cmath>` functions are read over the reals:
`Libm.mk Real.sin Real.exp Real.sqrt (Real.logb 10) Real.pi`. -/

section RealSamples

theorem sinusoidalZ_pos (s : ℝ) (hs : 1 / 100 ≤ s) :
    0 < sinusoidalZ (Libm.mk Real.sin Real.exp Real.sqrt (Real.logb 10) Real.pi) s := by
  unfold sinusoidalZ
  exact mul_pos Real.pi_pos (by linarith)

theorem sinusoidalZ_lt_pi (s : ℝ) (hs : s ≤ 99 / 100) :
    sinusoidalZ (Libm.mk Real.sin Real.exp Real.sqrt (Real.logb 10) Real.pi) s < Real.pi := by
  unfold sinusoidalZ
  nlinarith [Real.pi_pos]

theorem sin_sinusoidalZ_pos (s : ℝ) (hs1 : 1 / 100 ≤ s) (hs2 : s ≤ 99 / 100) :
    0 < Real.sin (sinusoidalZ (Libm.mk Real.sin Real.exp Real.sqrt (Real.logb 10) Real.pi) s) :=
  Real.sin_pos_of_pos_of_lt_pi (sinusoidalZ_pos s hs1) (sinusoidalZ_lt_pi s hs2)

theorem sinusoidalSample_below (s x : ℝ) (hs1 : 1 / 100 ≤ s) (hs2 : s ≤ 99 / 100) (hx : x ≤ 1) :
    sinusoidalSample (Libm.mk Real.sin Real.exp Real.sqrt (Real.logb 10) Real.pi) s x
      = Real.sin (Real.pi * s * x) / Real.sin (Real.pi * s) := by
  have hs0 : 0 < s := by linarith
  have hb : ¬ x > sinusoidalB s := by
    unfold sinusoidalB
    rw [not_lt, le_div_iff₀ hs0]
    nlinarith
  unfold sinusoidalSample
  rw [if_neg hb]
  simp only [sinusoidalA, sinusoidalZ, mul_one_div]

theorem sinusoidalSample_bounds (s x : ℝ) (hs1 : 1 / 100 ≤ s) (hs2 : s ≤ 1 / 2)
    (hx1 : -1 ≤ x) (hx2 : x ≤ 1) :
    -1 ≤ sinusoidalSample (Libm.mk Real.sin Real.exp Real.sqrt (Real.logb 10) Real.pi) s x ∧
      sinusoidalSample (Libm.mk Real.sin Real.exp Real.sqrt (Real.logb 10) Real.pi) s x ≤ 1 := by
  rw [sinusoidalSample_below s x hs1 (by linarith) hx2]
  have hpi := Real.pi_pos
  have hz0 : 0 < Real.pi * s := mul_pos hpi (by linarith)
  have hz1 : Real.pi * s ≤ Real.pi / 2 := by nlinarith
  have hpos : 0 < Real.sin (Real.pi * s) :=
    Real.sin_pos_of_pos_of_lt_pi hz0 (by linarith)
  have hu : Real.pi * s * x ≤ Real.pi * s := by nlinarith
  have hl : -(Real.pi * s) ≤ Real.pi * s * x := by nlinarith
  have h1 : Real.sin (Real.pi * s * x) ≤ Real.sin (Real.pi * s) :=
    Real.sin_le_sin_of_le_of_le_pi_div_two (by linarith) hz1 hu
  have h2 : Real.sin (-(Real.pi * s)) ≤ Real.sin (Real.pi * s * x) :=
    Real.sin_le_sin_of_le_of_le_pi_div_two (by linarith) (by linarith) hl
  rw [Real.sin_neg] at h2
  rw [le_div_iff₀ hpos, div_le_iff₀ hpos]
  constructor <;> linarith

theorem gbDivisor_pos (d : ℝ) :
    0 < gbDivisor (Libm.mk Real.sin Real.exp Real.sqrt (Real.logb 10) Real.pi) d := by
  unfold gbDivisor
  exact add_pos (Real.exp_pos d) (Real.exp_pos (-d))

theorem gbConstant_pos (d : ℝ) :
    0 < gbConstant (Libm.mk Real.sin Real.exp Real.sqrt (Real.logb 10) Real.pi) d := by
  unfold gbConstant
  exact add_pos one_pos (Real.exp_pos _)

theorem gbSample_le_one (g x : ℝ) :
    gbSample (Libm.mk Real.sin Real.exp Real.sqrt (Real.logb 10) Real.pi) g x ≤ 1 := by
  have hD := gbDivisor_pos (gbDistortion g x)
  unfold gbSample
  rw [div_le_iff₀ hD]
  unfold gbDivisor
  simp only
  have h1 := Real.exp_pos (-gbDistortion g x)
  have h2 := Real.exp_pos (-gbDistortion g x
    * gbConstant (Libm.mk Real.sin Real.exp Real.sqrt (Real.logb 10) Real.pi) (gbDistortion g x))
  linarith

theorem gbSample_nonneg (g x : ℝ) (hg : 0 ≤ g) (hx : 0 ≤ x) :
    0 ≤ gbSample (Libm.mk Real.sin Real.exp Real.sqrt (Real.logb 10) Real.pi) g x := by
  have hD := gbDivisor_pos (gbDistortion g x)
  have hd : 0 ≤ gbDistortion g x := mul_nonneg hx hg
  have hc := gbConstant_pos (gbDistortion g x)
  unfold gbSample
  apply div_nonneg _ hD.le
  simp only
  have h : Real.exp (-gbDistortion g x
      * gbConstant (Libm.mk Real.sin Real.exp Real.sqrt (Real.logb 10) Real.pi) (gbDistortion g x))
      ≤ Real.exp (gbDistortion g x) := by
    apply Real.exp_le_exp.mpr
    nlinarith [mul_nonneg hd hc.le]
  linarith

theorem sinusoidalSample_example :
    1 < sinusoidalSample (Libm.mk Real.sin Real.exp Real.sqrt (Real.logb 10) Real.pi)
      (3 / 4) (1 / 2) := by
  rw [sinusoidalSample_below (3 / 4) (1 / 2) (by norm_num) (by norm_num) (by norm_num)]
  have hpi := Real.pi_pos
  have e1 : Real.pi * (3 / 4) = Real.pi - Real.pi / 4 := by ring
  have h4 : Real.sin (Real.pi * (3 / 4)) = Real.sin (Real.pi / 4) := by
    rw [e1, Real.sin_pi_sub]
  have hpos : 0 < Real.sin (Real.pi / 4) :=
    Real.sin_pos_of_pos_of_lt_pi (by linarith) (by linarith)
  have hlt : Real.sin (Real.pi / 4) < Real.sin (Real.pi * (3 / 4) * (1 / 2)) :=
    Real.sin_lt_sin_of_lt_of_le_pi_div_two (by linarith) (by nlinarith) (by nlinarith)
  rw [h4, lt_div_iff₀ hpos]
  linarith

theorem gbSample_example :
    gbSample (Libm.mk Real.sin Real.exp Real.sqrt (Real.logb 10) Real.pi) 4 (-1) < -1 := by
  have hsqrt : Real.sqrt 4 = 2 := by
    rw [show (4 : ℝ) = 2 ^ 2 by norm_num]
    exact Real.sqrt_sq (by norm_num)
  have hD := gbDivisor_pos (gbDistortion (4 : ℝ) (-1))
  unfold gbSample
  rw [div_lt_iff₀ hD]
  have hd : gbDistortion (4 : ℝ) (-1) = -4 := by norm_num [gbDistortion]
  rw [hd]
  simp only [gbDivisor, gbConstant, neg_neg, abs_neg]
  rw [show |(4 : ℝ)| = 4 by norm_num, hsqrt]
  have ht : 0 < Real.exp (2 * -(3 / 4) : ℝ) := Real.exp_pos _
  have h4 : 1 ≤ Real.exp (4 : ℝ) := Real.one_le_exp (by norm_num)
  have hm4 : Real.exp (-4 : ℝ) ≤ 1 := Real.exp_le_one_iff.mpr (by norm_num)
  have h52 : 1 ≤ Real.exp (4 + 2 * -(3 / 4) : ℝ) := Real.one_le_exp (by norm_num)
  have e1 : Real.exp (4 * (1 + Real.exp (2 * -(3 / 4) : ℝ)))
      = Real.exp 4 * Real.exp (4 * Real.exp (2 * -(3 / 4) : ℝ)) := by
    rw [← Real.exp_add]; ring_nf
  have e2 : 4 * Real.exp (2 * -(3 / 4) : ℝ) + 1 ≤ Real.exp (4 * Real.exp (2 * -(3 / 4) : ℝ)) :=
    Real.add_one_le_exp _
  have e3 : Real.exp 4 * Real.exp (2 * -(3 / 4) : ℝ) = Real.exp (4 + 2 * -(3 / 4) : ℝ) :=
    (Real.exp_add _ _).symm
  rw [e1]
  nlinarith [mul_le_mul_of_nonneg_left e2 (Real.exp_pos 4).le]

theorem transfer_zero (p : Parameters ℝ) (hs : 0 ≤ p.sinDistort) :
    transfer (Libm.mk Real.sin Real.exp Real.sqrt (Real.logb 10) Real.pi) p 0 = 0 := by
  have hb : ¬ (0 : ℝ) > sinusoidalB p.sinDistort := by
    unfold sinusoidalB
    exact not_lt.mpr (one_div_nonneg.mpr hs)
  unfold transfer
  split_ifs
  · simp [sinusoidalSample, hb]
  · exact quadraticSample_zero _
  · exact factorSample_zero _
  · simp [gbSample, gbDistortion]
  · rfl

end RealSamples

/-! ## Silent blocks through the block processor -/

section Silence

variable {α : Type} [LinearOrderedField α]

theorem sumSquares_zero (b : AudioBuffer α) (c n : Nat) (hz : ∀ i, i < n → b.data c i = 0) :
    loop n (fun i sum => sum + b.data c i * b.data c i) (0 : α) = 0 := by
  induction n with
  | zero => rfl
  | succ k ih =>
    rw [loop_succ, ih (fun i hi => hz i (by omega)), hz k (by omega)]
    simp

theorem meterLevel_silent (m : Libm α) (hsqrt : m.sqrt 0 = 0) (b : AudioBuffer α)
    (hz : b.silent) (c : Nat) : meterLevel m b c = -60 := by
  have hrms : b.getRMSLevel m c b.numSamples = 0 := by
    unfold AudioBuffer.getRMSLevel
    split_ifs with h
    · rfl
    · have hc : c < b.numChannels := by omega
      rw [sumSquares_zero b c b.numSamples (fun i hi => hz c i hc hi)]
      simpa using hsqrt
  unfold meterLevel
  rw [hrms]
  norm_num [gainToDecibels]

theorem silent_clearLoop (lo k : Nat) (b : AudioBuffer α) (hz : b.silent) :
    (loop k (fun j buf => buf.clear (lo + j) buf.numSamples) b).silent := by
  rw [clearLoop_eq]
  intro c i hc hi
  have h := hz c i hc hi
  simp only at hc hi ⊢
  split_ifs
  · rfl
  · exact h

theorem silent_gainProcess (ramp : Nat → α) (b : AudioBuffer α) (hz : b.silent) :
    (gainProcess ramp b).silent := by
  rw [gainProcess_eq]
  intro c i hc hi
  have h := hz c i hc hi
  simp only at hc hi ⊢
  rw [h]
  simp

theorem silent_shapeLoop (m : Libm α) (p : Parameters α) (h0 : transfer m p 0 = 0) (n : Nat)
    (b : AudioBuffer α) (hz : b.silent) :
    (loop n (fun channel buf => shape m p channel buf) b).silent := by
  rw [shapeLoop_eq]
  intro c i hc hi
  have h := hz c i hc hi
  simp only at hc hi ⊢
  rw [h, h0]
  simp

/-- The block processor with the bypass parameter clear: both meters of the input channels
are refreshed, the first from the block as received and the second from the block as
returned. -/
theorem processBlock_active (m : Libm α) (p : Parameters α) (nIn nOut : Nat)
    (inRamp outRamp : Nat → α) (st : Meters α) (buffer : AudioBuffer α)
    (hb : p.bypass = false) :
    (processBlock m p nIn nOut inRamp outRamp st buffer).1
      = ⟨fun c => if c < nIn then meterLevel m buffer c else st.rmsIn c,
         fun c => if c < nIn
           then meterLevel m (processBlock m p nIn nOut inRamp outRamp st buffer).2 c
           else st.rmsOut c⟩ := by
  unfold processBlock
  simp only [hb, Bool.false_eq_true, if_false, meterInLoop_eq, meterOutLoop_eq]

theorem processBlock_active_silent (m : Libm α) (p : Parameters α) (nIn nOut : Nat)
    (inRamp outRamp : Nat → α) (st : Meters α) (buffer : AudioBuffer α)
    (hb : p.bypass = false) (h0 : transfer m p 0 = 0) (hz : buffer.silent) :
    (processBlock m p nIn nOut inRamp outRamp st buffer).2.silent := by
  unfold processBlock
  simp only [hb, Bool.false_eq_true, if_false]
  exact silent_gainProcess _ _ (silent_shapeLoop m p h0 _ _
    (silent_gainProcess _ _ (silent_clearLoop _ _ _ hz)))

end Silence

theorem shapeChannel_data {α : Type} (f : α → α) (ch s : Nat) (b : AudioBuffer α)
    (hs : s < b.numSamples) : (shapeChannel f ch b).data ch s = f (b.data ch s) := by
  rw [shapeChannel_eq]
  simp [hs]

/-! ## The bypass path -/

section Bypass

variable {α : Type} [LinearOrderedField α]

/-- With `bypass` set, `processBlock` sets to zero the samples of the channels from
`totalNumInputChannels` up to `totalNumOutputChannels` and leaves every other sample of the
buffer as it was. -/
theorem processBlock_bypass_data (m : Libm α) (p : Parameters α)
    (totalNumInputChannels totalNumOutputChannels : Nat) (inRamp outRamp : Nat → α)
    (st : Meters α) (buffer : AudioBuffer α) (hb : p.bypass = true) (c i : Nat) :
    (processBlock m p totalNumInputChannels totalNumOutputChannels inRamp outRamp st buffer).2.data
        c i
      = if (totalNumInputChannels ≤ c ∧ c < totalNumOutputChannels) ∧ i < buffer.numSamples
        then 0 else buffer.data c i := by
  rw [processBlock_bypass m p _ _ inRamp outRamp st buffer hb]
  have h1 : (totalNumInputChannels ≤ c ∧
      c < totalNumInputChannels + (totalNumOutputChannels - totalNumInputChannels))
      ↔ (totalNumInputChannels ≤ c ∧ c < totalNumOutputChannels) := by omega
  simp only [h1]

/-- With `bypass` set and no more output channels than input channels, `processBlock`
returns the buffer it received. -/
theorem processBlock_bypass_buffer (m : Libm α) (p : Parameters α)
    (totalNumInputChannels totalNumOutputChannels : Nat) (inRamp outRamp : Nat → α)
    (st : Meters α) (buffer : AudioBuffer α) (hb : p.bypass = true)
    (hn : totalNumOutputChannels ≤ totalNumInputChannels) :
    (processBlock m p totalNumInputChannels totalNumOutputChannels inRamp outRamp st buffer).2
      = buffer := by
  rw [processBlock_bypass m p _ _ inRamp outRamp st buffer hb]
  cases buffer with
  | mk nc ns data =>
    simp only [AudioBuffer.mk.injEq, true_and]
    funext c i
    have h1 : ¬ (totalNumInputChannels ≤ c ∧
        c < totalNumInputChannels + (totalNumOutputChannels - totalNumInputChannels)) := by
      omega
    simp [h1]

/-- A layout that `isBusesLayoutSupported` accepts has the same channel set on its main
input and on its main output, which is mono or stereo. -/
theorem supported_layout (layouts : BusesLayout) (hl : isBusesLayoutSupported layouts = true) :
    layouts.mainInput = layouts.mainOutput ∧
      (layouts.mainOutput = AudioChannelSet.mono ∨
        layouts.mainOutput = AudioChannelSet.stereo) := by
  unfold isBusesLayoutSupported at hl
  split_ifs at hl with h1 h2
  · exact ⟨(not_not.mp h2).symm, by tauto⟩

/-- Claim C1: for every input buffer, every channel configuration that the processor
supports (`isBusesLayoutSupported`) and every parameter state with `bypass` set,
`processBlock` leaves the buffer, every sample of every channel, exactly as it was before the
call. -/
theorem bypass_identity (m : Libm α) (p : Parameters α) (layouts : BusesLayout)
    (inRamp outRamp : Nat → α) (st : Meters α) (buffer : AudioBuffer α)
    (hl : isBusesLayoutSupported layouts = true) (hb : p.bypass = true) :
    (processBlock m p (getTotalNumInputChannels layouts) (getTotalNumOutputChannels layouts)
        inRamp outRamp st buffer).2 = buffer := by
  apply processBlock_bypass_buffer m p _ _ inRamp outRamp st buffer hb
  unfold getTotalNumInputChannels getTotalNumOutputChannels
  rw [(supported_layout layouts hl).1]

/-- Claim C7: with `bypass` set, `processBlock` leaves `rmsOut[ch]`, hence `getOutRMS (ch)`,
equal to its value before the call for every channel `ch`, while `rmsIn[ch]` of every input
channel has been recomputed from the block. -/
theorem bypass_keeps_output_meter (m : Libm α) (p : Parameters α)
    (totalNumInputChannels totalNumOutputChannels : Nat) (inRamp outRamp : Nat → α)
    (st : Meters α) (buffer : AudioBuffer α) (hb : p.bypass = true) (ch : Nat) :
    (processBlock m p totalNumInputChannels totalNumOutputChannels inRamp outRamp st
        buffer).1.getOutRMS ch = st.getOutRMS ch ∧
      (ch < totalNumInputChannels →
        (processBlock m p totalNumInputChannels totalNumOutputChannels inRamp outRamp st
          buffer).1.getRMS ch = meterLevel m buffer ch) := by
  rw [processBlock_bypass m p _ _ inRamp outRamp st buffer hb]
  refine ⟨rfl, fun h => ?_⟩
  simp [Meters.getRMS, h]

end Bypass

/-- Witness of `bypass_identity`: the stereo layout that the constructor declares, on a
stereo block of one sample. -/
theorem bypass_identity_witness :
    (isBusesLayoutSupported ⟨AudioChannelSet.stereo, AudioChannelSet.stereo⟩ = true ∧
      (Parameters.mk true 1 (1 / 2) 1 (1 / 2) 1 0 (0 : ℝ)).bypass = true) ∧
    (processBlock (Libm.mk Real.sin Real.exp Real.sqrt (Real.logb 10) Real.pi)
        (Parameters.mk true 1 (1 / 2) 1 (1 / 2) 1 0 0)
        (getTotalNumInputChannels ⟨AudioChannelSet.stereo, AudioChannelSet.stereo⟩)
        (getTotalNumOutputChannels ⟨AudioChannelSet.stereo, AudioChannelSet.stereo⟩)
        (fun _ => 1) (fun _ => 1) ⟨fun _ => 0, fun _ => 0⟩
        ⟨2, 1, fun _ _ => 1⟩).2 = ⟨2, 1, fun _ _ => 1⟩ :=
  ⟨⟨by decide, rfl⟩,
    bypass_identity _ _ ⟨AudioChannelSet.stereo, AudioChannelSet.stereo⟩ _ _ _ _
      (by decide) rfl⟩

/-- Witness of `bypass_keeps_output_meter`: a stereo block of one sample, prior output
meters at `-12`. -/
theorem bypass_keeps_output_meter_witness :
    (Parameters.mk true 1 (1 / 2) 1 (1 / 2) 1 0 (0 : ℝ)).bypass = true ∧
    ((processBlock (Libm.mk Real.sin Real.exp Real.sqrt (Real.logb 10) Real.pi)
        (Parameters.mk true 1 (1 / 2) 1 (1 / 2) 1 0 0)
        2 2 (fun _ => 1) (fun _ => 1) ⟨fun _ => 0, fun _ => -12⟩
        ⟨2, 1, fun _ _ => 1⟩).1.getOutRMS 0
      = (Meters.mk (fun _ => (0 : ℝ)) (fun _ => -12)).getOutRMS 0 ∧
    (0 < 2 →
      (processBlock (Libm.mk Real.sin Real.exp Real.sqrt (Real.logb 10) Real.pi)
        (Parameters.mk true 1 (1 / 2) 1 (1 / 2) 1 0 0)
        2 2 (fun _ => 1) (fun _ => 1) ⟨fun _ => 0, fun _ => -12⟩
        ⟨2, 1, fun _ _ => 1⟩).1.getRMS 0
      = meterLevel (Libm.mk Real.sin Real.exp Real.sqrt (Real.logb 10) Real.pi)
          ⟨2, 1, fun _ _ => 1⟩ 0)) :=
  ⟨rfl, bypass_keeps_output_meter _ _ 2 2 _ _ _ _ rfl 0⟩

/-! ## Metering a silent block -/

theorem meterLevel_silent_real (b : AudioBuffer ℝ) (hz : b.silent) (c : Nat) :
    meterLevel (Libm.mk Real.sin Real.exp Real.sqrt (Real.logb 10) Real.pi) b c = -60 :=
  meterLevel_silent (Libm.mk Real.sin Real.exp Real.sqrt (Real.logb 10) Real.pi)
    Real.sqrt_zero b hz c

/-- Claim C6, as amended: for in-range parameters and any prior meter state, after
`processBlock` on a block whose samples are all zero, `getRMS (ch)` returns exactly `-60`
for every input channel `ch`, and `getOutRMS (ch)` returns exactly `-60` when `bypass` is
clear and its prior value when `bypass` is set. -/
theorem silence_meters (p : Parameters ℝ)
    (totalNumInputChannels totalNumOutputChannels : Nat) (inRamp outRamp : Nat → ℝ)
    (st : Meters ℝ) (buffer : AudioBuffer ℝ) (ch : Nat)
    (hp : p.inRange) (hz : buffer.silent) (hch : ch < totalNumInputChannels) :
    (processBlock (Libm.mk Real.sin Real.exp Real.sqrt (Real.logb 10) Real.pi) p
        totalNumInputChannels totalNumOutputChannels inRamp outRamp st buffer).1.getRMS ch
      = -60 ∧
    (processBlock (Libm.mk Real.sin Real.exp Real.sqrt (Real.logb 10) Real.pi) p
        totalNumInputChannels totalNumOutputChannels inRamp outRamp st buffer).1.getOutRMS ch
      = if p.bypass then st.getOutRMS ch else -60 := by
  have hs : (0 : ℝ) ≤ p.sinDistort := by
    have h := hp.2.2.1.1
    linarith
  cases hb : p.bypass with
  | true =>
    rw [processBlock_bypass _ p _ _ inRamp outRamp st buffer hb]
    simp [Meters.getRMS, Meters.getOutRMS, hch, meterLevel_silent_real buffer hz]
  | false =>
    have hz2 := processBlock_active_silent
      (Libm.mk Real.sin Real.exp Real.sqrt (Real.logb 10) Real.pi) p totalNumInputChannels
      totalNumOutputChannels inRamp outRamp st buffer hb (transfer_zero p hs) hz
    rw [processBlock_active _ p _ _ inRamp outRamp st buffer hb]
    simp [Meters.getRMS, Meters.getOutRMS, hch, meterLevel_silent_real buffer hz,
      meterLevel_silent_real _ hz2]

/-- Counterexample to claim C6 as stated: default parameters with `bypass` set, a stereo
layout, prior output meters at `0` dB and a silent stereo block of one sample. After
`processBlock` the reading `getOutRMS (0)` is still the prior `0`, not `-60`. -/
theorem silence_meters_counterexample :
    (processBlock (Libm.mk Real.sin Real.exp Real.sqrt (Real.logb 10) Real.pi)
        { bypass := true, typeSelect := 1, sinDistort := 1 / 2, quadraticDistort := 1,
          factorDistort := 1 / 2, gbDistort := 1, inGainValue := 0, outGainValue := 0 }
        2 2 (fun _ => 1) (fun _ => 1) ⟨fun _ => 0, fun _ => 0⟩
        ⟨2, 1, fun _ _ => 0⟩).1.getOutRMS 0 ≠ -60 := by
  rw [processBlock_bypass _ _ _ _ _ _ _ _ rfl]
  norm_num [Meters.getOutRMS]

/-- Witness of `silence_meters`: the default parameters on a silent stereo block of one
sample, prior meters at `0` dB. -/
theorem silence_meters_witness :
    ((Parameters.mk false 1 (1 / 2) 1 (1 / 2) 1 0 (0 : ℝ)).inRange ∧
      (AudioBuffer.mk 2 1 (fun _ _ => (0 : ℝ))).silent ∧ 0 < 2) ∧
    ((processBlock (Libm.mk Real.sin Real.exp Real.sqrt (Real.logb 10) Real.pi)
        (Parameters.mk false 1 (1 / 2) 1 (1 / 2) 1 0 0)
        2 2 (fun _ => 1) (fun _ => 1) ⟨fun _ => 0, fun _ => 0⟩
        ⟨2, 1, fun _ _ => 0⟩).1.getRMS 0 = -60 ∧
    (processBlock (Libm.mk Real.sin Real.exp Real.sqrt (Real.logb 10) Real.pi)
        (Parameters.mk false 1 (1 / 2) 1 (1 / 2) 1 0 0)
        2 2 (fun _ => 1) (fun _ => 1) ⟨fun _ => 0, fun _ => 0⟩
        ⟨2, 1, fun _ _ => 0⟩).1.getOutRMS 0
      = if (Parameters.mk false 1 (1 / 2) 1 (1 / 2) 1 0 (0 : ℝ)).bypass
        then (Meters.mk (fun _ => (0 : ℝ)) (fun _ => 0)).getOutRMS 0 else -60) :=
  ⟨⟨by norm_num [Parameters.inRange], fun _ _ _ _ => rfl, by decide⟩,
    silence_meters _ 2 2 _ _ _ _ 0 (by norm_num [Parameters.inRange]) (fun _ _ _ _ => rfl)
      (by decide)⟩

/-! ## Bounds on what the shapers write -/

section RationalShapers

variable {α : Type} [LinearOrderedField α]

/-- Claim C4: for `quadraticDistort` in `[0.01, 10]` and a sample `x` in `[-1, 1]`, the value
that `processQuadratic` writes for `x`, `x * (|x| + q) / (x ^ 2 + (q - 1) * |x| + 1)`, lies
in `[-1, 1]`. -/
theorem quadratic_bounded (p : Parameters α) (channel s : Nat) (buffer : AudioBuffer α)
    (hq : 1 / 100 ≤ p.quadraticDistort ∧ p.quadraticDistort ≤ 10)
    (hs : s < buffer.numSamples)
    (hx : -1 ≤ buffer.data channel s ∧ buffer.data channel s ≤ 1) :
    (processQuadratic p channel buffer).data channel s
      = buffer.data channel s * (|buffer.data channel s| + p.quadraticDistort)
        / (buffer.data channel s ^ 2 + (p.quadraticDistort - 1) * |buffer.data channel s| + 1) ∧
    -1 ≤ (processQuadratic p channel buffer).data channel s ∧
    (processQuadratic p channel buffer).data channel s ≤ 1 := by
  unfold processQuadratic
  rw [shapeChannel_data _ _ _ _ hs]
  exact ⟨rfl, quadraticSample_bounds _ _ hq.1 hx.1 hx.2⟩

/-- Claim C5: for `factorDistort` in `[0.01, 0.99]` and a sample `x` in `[-1, 1]`, with
`k = 2 * factorDistort / (1 - factorDistort)`, the value that `processFactor` writes for
`x`, `(1 + k) * x / (1 + k * |x|)`, lies in `[-1, 1]`. -/
theorem factor_bounded (p : Parameters α) (channel s : Nat) (buffer : AudioBuffer α)
    (hf : 1 / 100 ≤ p.factorDistort ∧ p.factorDistort ≤ 99 / 100)
    (hs : s < buffer.numSamples)
    (hx : -1 ≤ buffer.data channel s ∧ buffer.data channel s ≤ 1) :
    (processFactor p channel buffer).data channel s
      = (1 + 2 * p.factorDistort / (1 - p.factorDistort)) * buffer.data channel s
        / (1 + 2 * p.factorDistort / (1 - p.factorDistort) * |buffer.data channel s|) ∧
    -1 ≤ (processFactor p channel buffer).data channel s ∧
    (processFactor p channel buffer).data channel s ≤ 1 := by
  unfold processFactor
  rw [shapeChannel_data _ _ _ _ hs]
  exact ⟨rfl, factorSample_bounds _ _ hf.1 hf.2 hx.1 hx.2⟩

/-- Claim C9: for any `factorDistort` on which `processFactor` divides by a nonzero
`1 - factorDistort`, which is every value of the declared range, `processFactor` maps a
sample equal to `0` to exactly `0`; neither of its two divisors is zero there. -/
theorem factor_fixed_point (p : Parameters α) (channel s : Nat) (buffer : AudioBuffer α)
    (hf : p.factorDistort ≠ 1) (hs : s < buffer.numSamples)
    (hx : buffer.data channel s = 0) :
    (1 - p.factorDistort ≠ 0 ∧ factorDivisor p.factorDistort (buffer.data channel s) ≠ 0) ∧
    (processFactor p channel buffer).data channel s = 0 := by
  refine ⟨⟨fun h => hf ?_, ?_⟩, ?_⟩
  · linarith
  · rw [hx]
    simp [factorDivisor]
  · unfold processFactor
    rw [shapeChannel_data _ _ _ _ hs, hx]
    exact factorSample_zero _

/-- Claim C8: with `sinDistort = 0.5` the threshold `b = 1 / sinDistort` of
`processSinusoidal` is `2`, and every sample above `2` is replaced by exactly `1`. -/
theorem sinusoidal_clamp (m : Libm α) (p : Parameters α) (channel s : Nat)
    (buffer : AudioBuffer α) (hp : p.sinDistort = 1 / 2) (hs : s < buffer.numSamples)
    (hx : 2 < buffer.data channel s) :
    sinusoidalB p.sinDistort = 2 ∧ (processSinusoidal m p channel buffer).data channel s = 1 := by
  have hb : sinusoidalB p.sinDistort = 2 := by
    rw [hp]
    norm_num [sinusoidalB]
  refine ⟨hb, ?_⟩
  unfold processSinusoidal
  rw [shapeChannel_data _ _ _ _ hs]
  unfold sinusoidalSample
  rw [hb, if_pos hx]

end RationalShapers

/-- Witness of `quadratic_bounded`: the largest amount, `10`, on a full-scale sample. -/
theorem quadratic_bounded_witness :
    ((1 / 100 ≤ (10 : ℝ) ∧ (10 : ℝ) ≤ 10) ∧ 0 < 1 ∧ (-1 ≤ (1 : ℝ) ∧ (1 : ℝ) ≤ 1)) ∧
    ((processQuadratic (Parameters.mk false 2 (1 / 2) 10 (1 / 2) 1 0 (0 : ℝ)) 0
        ⟨1, 1, fun _ _ => 1⟩).data 0 0
      = (1 : ℝ) * (|(1 : ℝ)| + 10) / ((1 : ℝ) ^ 2 + (10 - 1) * |(1 : ℝ)| + 1) ∧
    -1 ≤ (processQuadratic (Parameters.mk false 2 (1 / 2) 10 (1 / 2) 1 0 (0 : ℝ)) 0
        ⟨1, 1, fun _ _ => 1⟩).data 0 0 ∧
    (processQuadratic (Parameters.mk false 2 (1 / 2) 10 (1 / 2) 1 0 (0 : ℝ)) 0
        ⟨1, 1, fun _ _ => 1⟩).data 0 0 ≤ 1) :=
  ⟨⟨by norm_num, by decide, by norm_num⟩,
    quadratic_bounded (Parameters.mk false 2 (1 / 2) 10 (1 / 2) 1 0 (0 : ℝ)) 0 0
      ⟨1, 1, fun _ _ => 1⟩ (by norm_num) (by decide) (by norm_num)⟩

/-- Witness of `factor_bounded`: the largest amount, `0.99`, on the sample `-1`. -/
theorem factor_bounded_witness :
    ((1 / 100 ≤ (99 / 100 : ℝ) ∧ (99 / 100 : ℝ) ≤ 99 / 100) ∧ 0 < 1 ∧
      (-1 ≤ (-1 : ℝ) ∧ (-1 : ℝ) ≤ 1)) ∧
    ((processFactor (Parameters.mk false 3 (1 / 2) 1 (99 / 100) 1 0 (0 : ℝ)) 0
        ⟨1, 1, fun _ _ => -1⟩).data 0 0
      = (1 + 2 * (99 / 100 : ℝ) / (1 - 99 / 100)) * (-1)
        / (1 + 2 * (99 / 100 : ℝ) / (1 - 99 / 100) * |(-1 : ℝ)|) ∧
    -1 ≤ (processFactor (Parameters.mk false 3 (1 / 2) 1 (99 / 100) 1 0 (0 : ℝ)) 0
        ⟨1, 1, fun _ _ => -1⟩).data 0 0 ∧
    (processFactor (Parameters.mk false 3 (1 / 2) 1 (99 / 100) 1 0 (0 : ℝ)) 0
        ⟨1, 1, fun _ _ => -1⟩).data 0 0 ≤ 1) :=
  ⟨⟨by norm_num, by decide, by norm_num⟩,
    factor_bounded (Parameters.mk false 3 (1 / 2) 1 (99 / 100) 1 0 (0 : ℝ)) 0 0
      ⟨1, 1, fun _ _ => -1⟩ (by norm_num) (by decide) (by norm_num)⟩

/-- Witness of `factor_fixed_point`: the default amount on a block of one zero sample. -/
theorem factor_fixed_point_witness :
    ((Parameters.mk false 3 (1 / 2) 1 (1 / 2) 1 0 (0 : ℝ)).factorDistort ≠ 1 ∧ 0 < 1 ∧
      (AudioBuffer.mk 1 1 (fun _ _ => (0 : ℝ))).data 0 0 = 0) ∧
    ((1 - (Parameters.mk false 3 (1 / 2) 1 (1 / 2) 1 0 (0 : ℝ)).factorDistort ≠ 0 ∧
      factorDivisor (Parameters.mk false 3 (1 / 2) 1 (1 / 2) 1 0 (0 : ℝ)).factorDistort
        ((AudioBuffer.mk 1 1 (fun _ _ => (0 : ℝ))).data 0 0) ≠ 0) ∧
    (processFactor (Parameters.mk false 3 (1 / 2) 1 (1 / 2) 1 0 (0 : ℝ)) 0
        ⟨1, 1, fun _ _ => 0⟩).data 0 0 = 0) :=
  ⟨⟨by norm_num, by decide, rfl⟩,
    factor_fixed_point (Parameters.mk false 3 (1 / 2) 1 (1 / 2) 1 0 (0 : ℝ)) 0 0
      ⟨1, 1, fun _ _ => 0⟩ (by norm_num) (by decide) rfl⟩

/-- Witness of `sinusoidal_clamp`: the sample `3` under `sinDistort = 0.5`. -/
theorem sinusoidal_clamp_witness :
    ((Parameters.mk false 1 (1 / 2) 1 (1 / 2) 1 0 (0 : ℝ)).sinDistort = 1 / 2 ∧ 0 < 1 ∧
      2 < (AudioBuffer.mk 1 1 (fun _ _ => (3 : ℝ))).data 0 0) ∧
    (sinusoidalB (Parameters.mk false 1 (1 / 2) 1 (1 / 2) 1 0 (0 : ℝ)).sinDistort = 2 ∧
    (processSinusoidal (Libm.mk Real.sin Real.exp Real.sqrt (Real.logb 10) Real.pi)
        (Parameters.mk false 1 (1 / 2) 1 (1 / 2) 1 0 (0 : ℝ)) 0
        ⟨1, 1, fun _ _ => 3⟩).data 0 0 = 1) :=
  ⟨⟨rfl, by decide, by norm_num⟩,
    sinusoidal_clamp (Libm.mk Real.sin Real.exp Real.sqrt (Real.logb 10) Real.pi)
      (Parameters.mk false 1 (1 / 2) 1 (1 / 2) 1 0 (0 : ℝ)) 0 0
      ⟨1, 1, fun _ _ => 3⟩ rfl (by decide) (by norm_num)⟩

/-- Claim C2, as amended: for `sinDistort` in `[0.01, 0.5]` and a sample `x` in `[-1, 1]`,
the value that `processSinusoidal` writes for `x`, which is
`sin (pi * sinDistort * x) / sin (pi * sinDistort)` as `x` is not above `1 / sinDistort`,
lies in `[-1, 1]`. -/
theorem sinusoidal_bounded (p : Parameters ℝ) (channel s : Nat) (buffer : AudioBuffer ℝ)
    (hd : 1 / 100 ≤ p.sinDistort ∧ p.sinDistort ≤ 1 / 2) (hs : s < buffer.numSamples)
    (hx : -1 ≤ buffer.data channel s ∧ buffer.data channel s ≤ 1) :
    (processSinusoidal (Libm.mk Real.sin Real.exp Real.sqrt (Real.logb 10) Real.pi) p channel
        buffer).data channel s
      = Real.sin (Real.pi * p.sinDistort * buffer.data channel s)
        / Real.sin (Real.pi * p.sinDistort) ∧
    -1 ≤ (processSinusoidal (Libm.mk Real.sin Real.exp Real.sqrt (Real.logb 10) Real.pi) p
        channel buffer).data channel s ∧
    (processSinusoidal (Libm.mk Real.sin Real.exp Real.sqrt (Real.logb 10) Real.pi) p channel
        buffer).data channel s ≤ 1 := by
  unfold processSinusoidal
  rw [shapeChannel_data _ _ _ _ hs]
  exact ⟨sinusoidalSample_below _ _ hd.1 (by linarith [hd.2]) hx.2,
    sinusoidalSample_bounds _ _ hd.1 hd.2 hx.1 hx.2⟩

/-- Counterexample to claim C2 as stated: `sinDistort = 0.75` and the sample `0.5` are in
range, and `processSinusoidal` writes `sin (3 pi / 8) / sin (3 pi / 4)`, which is above `1`. -/
theorem sinusoidal_bounded_counterexample :
    (1 / 100 ≤ (3 / 4 : ℝ) ∧ (3 / 4 : ℝ) ≤ 99 / 100) ∧ (-1 ≤ (1 / 2 : ℝ) ∧ (1 / 2 : ℝ) ≤ 1) ∧
    1 < (processSinusoidal (Libm.mk Real.sin Real.exp Real.sqrt (Real.logb 10) Real.pi)
        { bypass := false, typeSelect := 1, sinDistort := 3 / 4, quadraticDistort := 1,
          factorDistort := 1 / 2, gbDistort := 1, inGainValue := 0, outGainValue := 0 }
        0 ⟨1, 1, fun _ _ => 1 / 2⟩).data 0 0 := by
  refine ⟨by norm_num, by norm_num, ?_⟩
  unfold processSinusoidal
  rw [shapeChannel_data _ _ _ _ (by decide)]
  exact sinusoidalSample_example

/-- Witness of `sinusoidal_bounded`: the default `sinDistort = 0.5` on the sample `1`. -/
theorem sinusoidal_bounded_witness :
    ((1 / 100 ≤ (1 / 2 : ℝ) ∧ (1 / 2 : ℝ) ≤ 1 / 2) ∧ 0 < 1 ∧ (-1 ≤ (1 : ℝ) ∧ (1 : ℝ) ≤ 1)) ∧
    ((processSinusoidal (Libm.mk Real.sin Real.exp Real.sqrt (Real.logb 10) Real.pi)
        (Parameters.mk false 1 (1 / 2) 1 (1 / 2) 1 0 (0 : ℝ)) 0
        ⟨1, 1, fun _ _ => 1⟩).data 0 0
      = Real.sin (Real.pi * (1 / 2) * 1) / Real.sin (Real.pi * (1 / 2)) ∧
    -1 ≤ (processSinusoidal (Libm.mk Real.sin Real.exp Real.sqrt (Real.logb 10) Real.pi)
        (Parameters.mk false 1 (1 / 2) 1 (1 / 2) 1 0 (0 : ℝ)) 0
        ⟨1, 1, fun _ _ => 1⟩).data 0 0 ∧
    (processSinusoidal (Libm.mk Real.sin Real.exp Real.sqrt (Real.logb 10) Real.pi)
        (Parameters.mk false 1 (1 / 2) 1 (1 / 2) 1 0 (0 : ℝ)) 0
        ⟨1, 1, fun _ _ => 1⟩).data 0 0 ≤ 1) :=
  ⟨⟨by norm_num, by decide, by norm_num⟩,
    sinusoidal_bounded (Parameters.mk false 1 (1 / 2) 1 (1 / 2) 1 0 (0 : ℝ)) 0 0
      ⟨1, 1, fun _ _ => 1⟩ (by norm_num) (by decide) (by norm_num)⟩

/-- Claim C3, as amended: for `gbDistort` in `[0.01, 10]` and a sample `x` in `[-1, 1]`, the
value that `processGB` writes for `x`, `(exp (d) - exp (-d * c)) / (exp (d) + exp (-d))` with
`d = x * gbDistort` and `c = 1 + exp (-0.75 * sqrt (|d|))`, is at most `1`, and it is at
least `-1` when `x` is not negative. -/
theorem gb_bounded (p : Parameters ℝ) (channel s : Nat) (buffer : AudioBuffer ℝ)
    (hg : 1 / 100 ≤ p.gbDistort ∧ p.gbDistort ≤ 10) (hs : s < buffer.numSamples)
    (_hx : -1 ≤ buffer.data channel s ∧ buffer.data channel s ≤ 1) :
    (processGB (Libm.mk Real.sin Real.exp Real.sqrt (Real.logb 10) Real.pi) p channel
        buffer).data channel s
      = (Real.exp (buffer.data channel s * p.gbDistort)
          - Real.exp (-(buffer.data channel s * p.gbDistort)
              * (1 + Real.exp (Real.sqrt |buffer.data channel s * p.gbDistort| * (-(3 / 4))))))
        / (Real.exp (buffer.data channel s * p.gbDistort)
          + Real.exp (-(buffer.data channel s * p.gbDistort))) ∧
    (processGB (Libm.mk Real.sin Real.exp Real.sqrt (Real.logb 10) Real.pi) p channel
        buffer).data channel s ≤ 1 ∧
    (0 ≤ buffer.data channel s →
      -1 ≤ (processGB (Libm.mk Real.sin Real.exp Real.sqrt (Real.logb 10) Real.pi) p channel
        buffer).data channel s) := by
  unfold processGB
  rw [shapeChannel_data _ _ _ _ hs]
  refine ⟨rfl, gbSample_le_one _ _, fun h0 => ?_⟩
  have h := gbSample_nonneg p.gbDistort (buffer.data channel s) (by linarith [hg.1]) h0
  linarith

/-- Counterexample to claim C3 as stated: `gbDistort = 4` and the sample `-1` are in range,
and `processGB` writes `(exp (-4) - exp (4 * (1 + exp (-1.5)))) / (exp (-4) + exp (4))`,
which is below `-1`. -/
theorem gb_bounded_counterexample :
    (1 / 100 ≤ (4 : ℝ) ∧ (4 : ℝ) ≤ 10) ∧ (-1 ≤ (-1 : ℝ) ∧ (-1 : ℝ) ≤ 1) ∧
    (processGB (Libm.mk Real.sin Real.exp Real.sqrt (Real.logb 10) Real.pi)
        { bypass := false, typeSelect := 4, sinDistort := 1 / 2, quadraticDistort := 1,
          factorDistort := 1 / 2, gbDistort := 4, inGainValue := 0, outGainValue := 0 }
        0 ⟨1, 1, fun _ _ => -1⟩).data 0 0 < -1 := by
  refine ⟨by norm_num, by norm_num, ?_⟩
  unfold processGB
  rw [shapeChannel_data _ _ _ _ (by decide)]
  exact gbSample_example

/-- Witness of `gb_bounded`: the default `gbDistort = 1` on the sample `1`. -/
theorem gb_bounded_witness :
    ((1 / 100 ≤ (1 : ℝ) ∧ (1 : ℝ) ≤ 10) ∧ 0 < 1 ∧ (-1 ≤ (1 : ℝ) ∧ (1 : ℝ) ≤ 1)) ∧
    (processGB (Libm.mk Real.sin Real.exp Real.sqrt (Real.logb 10) Real.pi)
        (Parameters.mk false 4 (1 / 2) 1 (1 / 2) 1 0 (0 : ℝ)) 0
        ⟨1, 1, fun _ _ => 1⟩).data 0 0 ≤ 1 ∧
    (0 ≤ (AudioBuffer.mk 1 1 (fun _ _ => (1 : ℝ))).data 0 0 →
      -1 ≤ (processGB (Libm.mk Real.sin Real.exp Real.sqrt (Real.logb 10) Real.pi)
        (Parameters.mk false 4 (1 / 2) 1 (1 / 2) 1 0 (0 : ℝ)) 0
        ⟨1, 1, fun _ _ => 1⟩).data 0 0) :=
  ⟨⟨by norm_num, by decide, by norm_num⟩,
    (gb_bounded (Parameters.mk false 4 (1 / 2) 1 (1 / 2) 1 0 (0 : ℝ)) 0 0
      ⟨1, 1, fun _ _ => 1⟩ (by norm_num) (by decide) (by norm_num)).2⟩

/-! ## The divisors of the shapers -/

/-- Claim C10: for parameters inside their declared ranges and every real sample `x`, every
divisor evaluated by the four transfer functions is nonzero: `sin (pi * sinDistort)` and
`sinDistort` in `processSinusoidal`, `x ^ 2 + (quadraticDistort - 1) * |x| + 1` in
`processQuadratic`, `1 - factorDistort` and `1 + k * |x|` in `processFactor`, and
`exp (d) + exp (-d)` in `processGB`; the three that depend on `x` are positive. -/
theorem divisors_nonzero (p : Parameters ℝ) (x : ℝ) (hp : p.inRange) :
    (Real.sin (sinusoidalZ (Libm.mk Real.sin Real.exp Real.sqrt (Real.logb 10) Real.pi)
        p.sinDistort) ≠ 0 ∧ p.sinDistort ≠ 0) ∧
    0 < quadraticDivisor p.quadraticDistort x ∧
    (1 - p.factorDistort ≠ 0 ∧ 0 < factorDivisor p.factorDistort x) ∧
    0 < gbDivisor (Libm.mk Real.sin Real.exp Real.sqrt (Real.logb 10) Real.pi)
      (gbDistortion p.gbDistort x) := by
  obtain ⟨_, _, hsin, hquad, hfac, _, _⟩ := hp
  refine ⟨⟨(sin_sinusoidalZ_pos _ hsin.1 hsin.2).ne', ?_⟩, quadraticDivisor_pos _ _ hquad.1,
    ⟨?_, factorDivisor_pos _ _ hfac.1 hfac.2⟩, gbDivisor_pos _⟩
  · linarith [hsin.1]
  · linarith [hfac.2]

/-- Witness of `divisors_nonzero`: the default parameters and the sample `-1`. -/
theorem divisors_nonzero_witness :
    (Parameters.mk false 1 (1 / 2) 1 (1 / 2) 1 0 (0 : ℝ)).inRange ∧
    ((Real.sin (sinusoidalZ (Libm.mk Real.sin Real.exp Real.sqrt (Real.logb 10) Real.pi)
        (Parameters.mk false 1 (1 / 2) 1 (1 / 2) 1 0 (0 : ℝ)).sinDistort) ≠ 0 ∧
      (Parameters.mk false 1 (1 / 2) 1 (1 / 2) 1 0 (0 : ℝ)).sinDistort ≠ 0) ∧
    0 < quadraticDivisor (Parameters.mk false 1 (1 / 2) 1 (1 / 2) 1 0 (0 : ℝ)).quadraticDistort
      (-1) ∧
    (1 - (Parameters.mk false 1 (1 / 2) 1 (1 / 2) 1 0 (0 : ℝ)).factorDistort ≠ 0 ∧
      0 < factorDivisor (Parameters.mk false 1 (1 / 2) 1 (1 / 2) 1 0 (0 : ℝ)).factorDistort
        (-1)) ∧
    0 < gbDivisor (Libm.mk Real.sin Real.exp Real.sqrt (Real.logb 10) Real.pi)
      (gbDistortion (Parameters.mk false 1 (1 / 2) 1 (1 / 2) 1 0 (0 : ℝ)).gbDistort (-1))) :=
  ⟨by norm_num [Parameters.inRange],
    divisors_nonzero (Parameters.mk false 1 (1 / 2) 1 (1 / 2) 1 0 (0 : ℝ)) (-1)
      (by norm_num [Parameters.inRange])⟩

end WaveShaper
